import Mathlib

/- Verification of the course-availability bot: a shallow embedding of the
record extractor (`course_scraper.rs`), the filter engine (`config.rs`), the
synchronizer (`db.rs`) and the cycle orchestration (`main.rs`), with theorems
about the documented behaviour. Rust `String` values are modeled as lists of
characters and `f32` values as exact rationals. -/

namespace UioBot

/-- Rust string contents are modeled as lists of characters. -/
abbrev Str := List Char

/-- Models Rust `str::trim_start`: drop leading whitespace. -/
def trimLeftChars (l : Str) : Str := l.dropWhile Char.isWhitespace

/-- Models Rust `str::trim_end`: drop trailing whitespace. -/
def trimRightChars (l : Str) : Str := (l.reverse.dropWhile Char.isWhitespace).reverse

/-- Models Rust `str::trim`. -/
def strTrim (l : Str) : Str := trimRightChars (trimLeftChars l)

/-- Numeric value of a list of decimal digit characters. -/
def digitsVal (l : List Char) : Nat := l.foldl (fun a c => a * 10 + (c.toNat - 48)) 0

/-- Unsigned part of the float parser: an optional integer part, an optional
single dot, an optional fractional part, at least one digit in total. -/
def parseUnsignedRat (l : Str) : Option ℚ :=
  let intPart := l.takeWhile (fun c => c ≠ '.')
  let rest := l.dropWhile (fun c => c ≠ '.')
  match rest with
  | [] =>
    if intPart ≠ [] ∧ intPart.all Char.isDigit then some (digitsVal intPart : ℚ) else none
  | _ :: frac =>
    if (intPart ≠ [] ∨ frac ≠ []) ∧ intPart.all Char.isDigit ∧ frac.all Char.isDigit then
      some ((digitsVal intPart : ℚ) + (digitsVal frac : ℚ) / (10 : ℚ) ^ frac.length)
    else none

/-- Models `f32::from_str` on plain decimal literals (optional sign, digits,
optional fractional part), with the parsed value represented exactly as a
rational. The exotic inputs the Rust parser also accepts (exponents,
infinities, NaN) do not occur in this program and are modeled as failures. -/
def parseRat (l : Str) : Option ℚ :=
  match l with
  | '-' :: rest => (parseUnsignedRat rest).map (fun q => -q)
  | '+' :: rest => parseUnsignedRat rest
  | _ => parseUnsignedRat l

/-- Mirrors `enum PointsFilter` in `config.rs`. -/
inductive PointsFilter where
  | None : PointsFilter
  | Exact (v : ℚ) : PointsFilter
  | Range (min max : Option ℚ) : PointsFilter
deriving DecidableEq, Repr

/-- Mirrors `PointsFilter::matches` in `config.rs`. -/
def PointsFilter.matches (f : PointsFilter) (points : ℚ) : Bool :=
  match f with
  | .None => true
  | .Exact exact => decide (|points - exact| < 1 / 100)
  | .Range min max =>
    let aboveMin := match min with
      | some m => decide (m ≤ points)
      | none => true
    let belowMax := match max with
      | some m => decide (points ≤ m)
      | none => true
    aboveMin && belowMax

/-- Simplified decimal rendering of a rational, standing in for the Rust `f32`
display formatting used inside `PointsFilter::description`; only the shape of
the description string matters to the verified properties, not the digits. -/
def ratToStr (q : ℚ) : Str := (toString q.num).data ++ ('/' :: (toString q.den).data)

/-- Mirrors `PointsFilter::description` in `config.rs`. -/
def PointsFilter.description (f : PointsFilter) : Str :=
  match f with
  | .None => ("all courses").data
  | .Exact v => ("courses with exactly ").data ++ ratToStr v ++ (" points").data
  | .Range (some mn) (some mx) =>
    ("courses with ").data ++ ratToStr mn ++ [' ', '-', ' '] ++ ratToStr mx ++ (" points").data
  | .Range (some mn) none => ("courses with >= ").data ++ ratToStr mn ++ (" points").data
  | .Range none (some mx) => ("courses with <= ").data ++ ratToStr mx ++ (" points").data
  | .Range none none => ("all courses").data

/-- First index of character `c` in `l`; models Rust `str::find(char)`. -/
def findCharIdx (c : Char) : Str → Option Nat
  | [] => none
  | x :: rest => if x = c then some 0 else (findCharIdx c rest).map (· + 1)

/-- Mirrors `parse_points_filter_expr` in `config.rs`: the rule cascade is
tried in source order and the first rule that fires wins; `none` models the
Rust `None` result (unparseable expression, signalled to the caller). -/
def parse_points_filter_expr (e : Str) : Option PointsFilter :=
  let expr := strTrim e
  if expr = [] then some PointsFilter.None
  else
    let tryRange : Option PointsFilter :=
      match findCharIdx '-' expr with
      | some dashPos =>
        if 0 < dashPos ∧ dashPos < expr.length - 1 then
          match parseRat (strTrim (expr.take dashPos)), parseRat (strTrim (expr.drop (dashPos + 1))) with
          | some mn, some mx => some (PointsFilter.Range (some mn) (some mx))
          | _, _ => none
        else none
      | none => none
    let tryGe : Option PointsFilter :=
      if (">=").data.isPrefixOf expr then
        (parseRat (strTrim (expr.drop 2))).map (fun mn => PointsFilter.Range (some mn) none)
      else none
    let tryGt : Option PointsFilter :=
      if expr.head? = some '>' ∧ ¬ (">=").data.isPrefixOf expr then
        (parseRat (strTrim (expr.drop 1))).map (fun mn => PointsFilter.Range (some mn) none)
      else none
    let tryPlus : Option PointsFilter :=
      if expr.getLast? = some '+' then
        (parseRat (strTrim expr.dropLast)).map (fun mn => PointsFilter.Range (some mn) none)
      else none
    let tryLe : Option PointsFilter :=
      if ("<=").data.isPrefixOf expr then
        (parseRat (strTrim (expr.drop 2))).map (fun mx => PointsFilter.Range none (some mx))
      else none
    let tryLt : Option PointsFilter :=
      if expr.head? = some '<' ∧ ¬ ("<=").data.isPrefixOf expr then
        (parseRat (strTrim (expr.drop 1))).map (fun mx => PointsFilter.Range none (some mx))
      else none
    let tryDash : Option PointsFilter :=
      if expr.getLast? = some '-' ∧ 1 < expr.length then
        (parseRat (strTrim expr.dropLast)).map (fun mx => PointsFilter.Range none (some mx))
      else none
    let tryExact : Option PointsFilter :=
      (parseRat expr).map PointsFilter.Exact
    ((((((tryRange.orElse (fun _ => tryGe)).orElse (fun _ => tryGt)).orElse
      (fun _ => tryPlus)).orElse (fun _ => tryLe)).orElse (fun _ => tryLt)).orElse
      (fun _ => tryDash)).orElse (fun _ => tryExact)

/-- Split on a character; models Rust `str::split(char)`, which always yields
at least one (possibly empty) piece. -/
def splitOnChar (c : Char) (l : Str) : List Str :=
  match l with
  | [] => [[]]
  | x :: rest =>
    let r := splitOnChar c rest
    if x = c then [] :: r
    else
      match r with
      | [] => [[x]]
      | h :: t => (x :: h) :: t

/-- Substring occurrence test; models Rust `str::contains(&str)`. -/
def containsSub (sep : Str) (l : Str) : Bool :=
  match l with
  | [] => sep.isEmpty
  | _ :: rest => sep.isPrefixOf l || containsSub sep rest

/-- Mirrors `is_valid_email` in `config.rs`. -/
def is_valid_email (email : Str) : Bool :=
  let email := strTrim email
  if email.isEmpty then false
  else
    match splitOnChar '@' email with
    | [lcl, domain] =>
      if lcl.isEmpty then false
      else if domain.isEmpty || !(domain.contains '.') then false
      else true
    | _ => false

/-- Mirrors `extract_email_from_address` in `config.rs` (on inputs where the
first angle brackets are properly ordered, the only case the program meets). -/
def extract_email_from_address (address : Str) : Str :=
  let address := strTrim address
  match findCharIdx '<' address, findCharIdx '>' address with
  | some s, some e => strTrim ((address.take e).drop (s + 1))
  | _, _ => address

/-- Mirrors `normalize_twilio_phone` in `config.rs`. -/
def normalize_twilio_phone (phone : Str) : Option Str :=
  let cleaned := phone.filter (fun c => ¬ c.isWhitespace ∧ c ≠ '-')
  match cleaned with
  | '+' :: digits =>
    if ¬ digits.all Char.isDigit then none
    else if ("1").data.isPrefixOf digits ∧ digits.length = 11 then some cleaned
    else if ("47").data.isPrefixOf digits ∧ digits.length = 10 then
      match (digits.drop 2).head? with
      | none => none
      | some first => if '2' ≤ first ∧ first ≤ '9' then some cleaned else none
    else none
  | _ => none

/-- Mirrors `normalize_norwegian_phone` in `config.rs`. -/
def normalize_norwegian_phone (phone : Str) : Option Str :=
  let cleaned := phone.filter (fun c => ¬ c.isWhitespace ∧ c ≠ '-')
  let hasPlus := cleaned.head? = some '+'
  let digits := if cleaned.head? = some '+' then cleaned.drop 1 else cleaned
  if ¬ digits.all Char.isDigit then none
  else
    let eightDigits? : Option Str :=
      if hasPlus ∧ ("47").data.isPrefixOf digits ∧ digits.length = 10 then some (digits.drop 2)
      else if ¬ hasPlus ∧ ("47").data.isPrefixOf digits ∧ digits.length = 10 then some (digits.drop 2)
      else if digits.length = 8 then some digits
      else none
    match eightDigits? with
    | none => none
    | some eight =>
      if eight.length ≠ 8 ∨ ¬ eight.all Char.isDigit then none
      else
        match eight.head? with
        | none => none
        | some first =>
          if '2' ≤ first ∧ first ≤ '9' then some (("+47").data ++ eight) else none

/-- Mirrors the clap-populated `Config` struct in `config.rs`; CLI parsing and
environment loading are outside the model, the struct holds the loaded values. -/
structure Config where
  url : Str
  db : Str
  database_url : Option Str
  database_auth_token : Option Str
  points_exact : Option ℚ
  points_max : Option ℚ
  points_min : Option ℚ
  points_filter_expr : Option Str
  verbose : Bool
  email_to : Option Str
  email_from : Option Str
  port : Nat
  sms_to : Option Str
  sms_from : Option Str
deriving DecidableEq, Repr

/-- Mirrors `Config::email_recipients`. -/
def Config.email_recipients (cfg : Config) : List Str :=
  match cfg.email_to with
  | some s => ((splitOnChar ',' s).map strTrim).filter (fun e => !e.isEmpty)
  | none => []

/-- Mirrors `Config::email_enabled`. -/
def Config.email_enabled (cfg : Config) : Bool :=
  cfg.email_to.isSome && !cfg.email_recipients.isEmpty

/-- Mirrors `Config::sms_recipients`. -/
def Config.sms_recipients (cfg : Config) : List Str :=
  match cfg.sms_to with
  | some s => (splitOnChar ',' s).filterMap (fun p => normalize_norwegian_phone (strTrim p))
  | none => []

/-- Mirrors `Config::sms_enabled`. -/
def Config.sms_enabled (cfg : Config) : Bool :=
  cfg.sms_to.isSome && !cfg.sms_recipients.isEmpty

/-- Mirrors `Config::validate` in `config.rs`; `Except.error` models `bail!`.
The message text is abbreviated (only success versus failure matters here). -/
def Config.validate (cfg : Config) : Except Str Unit := do
  if ¬ (("http://").data.isPrefixOf cfg.url ∨ ("https://").data.isPrefixOf cfg.url) then
    throw ("Invalid URL: must start with http:// or https://").data
  match cfg.database_url with
  | some dbUrl =>
    if ¬ (("libsql://").data.isPrefixOf dbUrl ∨ ("https://").data.isPrefixOf dbUrl) then
      throw ("Invalid database URL: must start with libsql:// or https://").data
    if cfg.database_auth_token.isNone then
      throw ("Turso database URL requires database-auth-token to be set").data
  | none => pure ()
  match cfg.points_min, cfg.points_max with
  | some mn, some mx =>
    if mn > mx then
      throw ("Invalid points filter: points-min cannot be greater than points-max").data
  | _, _ => pure ()
  match cfg.points_exact with
  | some exact =>
    if exact < 0 then throw ("Invalid points filter: points-exact cannot be negative").data
  | none => pure ()
  if cfg.email_enabled then
    if cfg.email_from.isNone then
      throw ("Email notifications require email-from to be set").data
    for email in cfg.email_recipients do
      if ¬ is_valid_email email then throw ("Invalid email address in email-to").data
    match cfg.email_from with
    | some frm =>
      if ¬ is_valid_email (extract_email_from_address frm) then
        throw ("Invalid email address in email-from").data
    | none => pure ()
  if cfg.sms_enabled then
    if cfg.sms_from.isNone then
      throw ("SMS notifications require sms-from to be set").data
    match cfg.sms_from with
    | some frm =>
      if (normalize_twilio_phone frm).isNone then
        throw ("Invalid Twilio phone number in sms-from").data
    | none => pure ()
    match cfg.sms_to with
    | some smsTo =>
      let rawNumbers := (splitOnChar ',' smsTo).map strTrim
      if cfg.sms_recipients.isEmpty ∧ ¬ rawNumbers.isEmpty then
        throw ("No valid Norwegian phone numbers in sms-to").data
    | none => pure ()
  pure ()

/-- The fall-back part of `Config::points_filter`: the individual numeric
flags, consulted when no expression is set or the expression fails to parse. -/
def Config.points_filter_fallback (cfg : Config) : PointsFilter :=
  match cfg.points_exact with
  | some exact => PointsFilter.Exact exact
  | none =>
    if cfg.points_min.isSome ∨ cfg.points_max.isSome then
      PointsFilter.Range cfg.points_min cfg.points_max
    else PointsFilter.None

/-- Mirrors `Config::points_filter` in `config.rs`: the expression string takes
precedence when it parses and otherwise the individual flags are consulted. -/
def Config.points_filter (cfg : Config) : PointsFilter :=
  match cfg.points_filter_expr with
  | some expr =>
    match parse_points_filter_expr expr with
    | some filt => filt
    | none => cfg.points_filter_fallback
  | none => cfg.points_filter_fallback

/-- Mirrors `struct Course` in `models.rs`. -/
structure Course where
  code : Str
  name : Str
  points : ℚ
  url : Str
  faculty : Str
deriving DecidableEq, Repr

/-- An anchor element inside a table cell: its optional `href` attribute and
its collected text. This is the part of the `scraper` crate's element that
`CourseScraper::parse_table` reads. -/
structure Link where
  href : Option Str
  text : Str
deriving DecidableEq, Repr

/-- One `td` cell: the first `a` element found inside it, if any, and the
cell's own collected text. -/
structure Cell where
  link : Option Link
  text : Str
deriving DecidableEq, Repr

/-- One `tr` row, reduced to its `td` cells in document order. -/
abbrev Row := List Cell

/-- One `table` element, reduced to its rows in document order. -/
abbrev Table := List Row

/-- An `h2` heading in the content region: its optional `id` attribute and its
collected text. -/
structure Heading where
  id : Option Str
  text : Str
deriving DecidableEq, Repr

/-- First-occurrence split: `splitFirst sep l = some (a, b)` when `l` is
`a ++ sep ++ b` with the separator at its first occurrence, `none` when `sep`
does not occur in `l`. Models Rust `str::find(&str)` plus slicing. -/
def splitFirst (sep : Str) : Str → Option (Str × Str)
  | [] => if sep.isEmpty then some ([], []) else none
  | c :: rest =>
    if sep.isPrefixOf (c :: rest) then some ([], (c :: rest).drop sep.length)
    else (splitFirst sep rest).map (fun p => (c :: p.1, p.2))

/-- Mirrors `parse_course_text` in `course_scraper.rs`: trim, split at the
first literal " - " into a trimmed code and a trimmed name, or take the whole
trimmed text as the code with an empty name. -/
def parse_course_text (text : Str) : Str × Str :=
  let t := strTrim text
  match splitFirst (" - ").data t with
  | some (before, after) => (strTrim before, strTrim after)
  | none => (t, [])

/-- Mirrors `parse_points` in `course_scraper.rs`: trim, normalize the decimal
comma to a dot, parse as a float. -/
def parse_points (text : Str) : Option ℚ :=
  parseRat ((strTrim text).map (fun c => if c = ',' then '.' else c))

/-- One iteration of the row loop in `CourseScraper::parse_table`: `none` when
the row is skipped (fewer than two cells, empty course code, or unparseable
points text); the Rust row counters feed logging only. -/
def parseRow (faculty : Str) (row : Row) : Option Course :=
  match row with
  | first :: second :: _ =>
    let parsed :=
      match first.link with
      | some a =>
        let href := a.href.getD []
        let cn := parse_course_text a.text
        (href, cn.1, cn.2)
      | none =>
        let cn := parse_course_text first.text
        (([] : Str), cn.1, cn.2)
    let url := parsed.1
    let code := parsed.2.1
    let name := parsed.2.2
    if code.isEmpty then none
    else
      match parse_points second.text with
      | some points =>
        some { code := code, name := name, points := points, url := url, faculty := faculty }
      | none => none
  | _ => none

/-- Mirrors `CourseScraper::parse_table`: process the rows in order, keeping
the courses of the rows that parse. -/
def parse_table (faculty : Str) (table : Table) : List Course :=
  table.filterMap (parseRow faculty)

/-- The sentinel faculty used when a table's index exceeds the faculty index. -/
def unknownFaculty : Str := ("Unknown Faculty").data

/-- The h2 scan of `CourseScraper::parse_courses`: headings with an `id`
attribute, excluding contact/question sections and empty-text headings, yield
the ordered faculty index. -/
def buildFacultyMap (headings : List Heading) : List Str :=
  headings.filterMap (fun h =>
    match h.id with
    | some hid =>
      if containsSub ("sporsmal").data hid || containsSub ("kontakt").data hid then none
      else
        let facultyName := strTrim h.text
        if facultyName.isEmpty then none else some facultyName
    | none => none)

/-- The faculty chosen for the table at (course-yielding) index `idx`, exactly
the `let faculty = ...` of the table loop in `parse_courses`. -/
def facultyAt (facultyMap : List Str) (idx : Nat) : Str :=
  if idx < facultyMap.length then facultyMap.getD idx unknownFaculty else unknownFaculty

/-- The table loop of `CourseScraper::parse_courses`: `tableIdx` advances only
past tables that yielded at least one course. -/
def parseCoursesLoop (facultyMap : List Str) : List Table → Nat → List Course
  | [], _ => []
  | t :: rest, tableIdx =>
    let faculty := facultyAt facultyMap tableIdx
    let tableCourses := parse_table faculty t
    if tableCourses.isEmpty then parseCoursesLoop facultyMap rest tableIdx
    else tableCourses ++ parseCoursesLoop facultyMap rest (tableIdx + 1)

/-- Mirrors `CourseScraper::parse_courses` after the selector queries: the
document is reduced to its heading elements and its tables in document order
within the content region. -/
def parse_courses (headings : List Heading) (tables : List Table) : List Course :=
  parseCoursesLoop (buildFacultyMap headings) tables 0

/-- Modelled from the spec's words for claim C2: tables are paired to
faculties positionally, the Nth table yielding at least one parsed course is
assigned faculty index N (0-based, counting only tables that yield at least
one parsed course), a zero-yield table does not consume a slot, and a
course-yielding table whose index reaches past the faculty index gets the
sentinel faculty. Whether a table yields courses is probed independently of
the faculty label. -/
def specPositionalPairing (facultyMap : List Str) (tables : List Table) : List Course :=
  (((tables.filter (fun t => !(parse_table unknownFaculty t).isEmpty)).enum).map
    (fun p => parse_table (facultyAt facultyMap p.1) p.2)).flatten

/-- A persisted row of the `courses` table in `db.rs` (`code` is the primary
key; timestamps are modeled as abstract instants). -/
structure StoredCourse where
  course : Course
  first_seen_at : Nat
  last_seen_at : Nat
deriving DecidableEq, Repr

/-- The codes of the persisted rows, in storage order. -/
def storeCodes (store : List StoredCourse) : List Str :=
  store.map (fun s => s.course.code)

/-- Mirrors `Database::upsert_course`: update the mutable attributes and
`last_seen_at` of an existing row with the same code (returning `false`, not
new), or insert a fresh row with both timestamps set to `now` (returning
`true`, new). -/
def upsert_course (store : List StoredCourse) (course : Course) (now : Nat) :
    List StoredCourse × Bool :=
  if store.any (fun s => s.course.code == course.code) then
    (store.map (fun s =>
      if s.course.code == course.code then
        { course := course, first_seen_at := s.first_seen_at, last_seen_at := now }
      else s), false)
  else
    (store ++ [{ course := course, first_seen_at := now, last_seen_at := now }], true)

/-- Mirrors `Database::remove_course`: read the row with the given code, then
delete it, returning the course that was stored (or `none`). -/
def remove_course (store : List StoredCourse) (code : Str) :
    List StoredCourse × Option Course :=
  match store.find? (fun s => s.course.code == code) with
  | some s => (store.filter (fun s2 => !(s2.course.code == code)), some s.course)
  | none => (store, none)

/-- Mirrors `SyncResult` in `db.rs`. -/
structure SyncResult where
  added : List Course
  removed : List Course
  is_first_run : Bool
  total_courses : Nat
deriving DecidableEq, Repr

/-- Mirrors `SyncResult::has_changes`. -/
def SyncResult.has_changes (r : SyncResult) : Bool :=
  !r.added.isEmpty || !r.removed.isEmpty

/-- The upsert loop of `Database::sync_courses`: every incoming course is
upserted in order; outside the bootstrap run each new course is appended to
`added` and recorded in the change log. Returns the updated store, the added
list and the change-log entries. -/
def upsertPhase (store : List StoredCourse) (courses : List Course) (now : Nat)
    (firstRun : Bool) : List StoredCourse × List Course × List (Str × Course) :=
  match courses with
  | [] => (store, [], [])
  | c :: rest =>
    let step := upsert_course store c now
    let recur := upsertPhase step.1 rest now firstRun
    if step.2 && !firstRun then
      (recur.1, c :: recur.2.1, (("added").data, c) :: recur.2.2)
    else recur

/-- The removal loop of `Database::sync_courses`: each stale code is removed;
outside the bootstrap run each removed course is appended to `removed` and
recorded in the change log. -/
def removePhase (store : List StoredCourse) (codes : List Str) (firstRun : Bool) :
    List StoredCourse × List Course × List (Str × Course) :=
  match codes with
  | [] => (store, [], [])
  | cd :: rest =>
    let step := remove_course store cd
    let recur := removePhase step.1 rest firstRun
    match step.2 with
    | some course =>
      if !firstRun then
        (recur.1, course :: recur.2.1, (("removed").data, course) :: recur.2.2)
      else recur
    | none => recur

/-- The state-passing outcome of `Database::sync_courses`: the store after the
cycle, the change-log entries written during it, and the returned result. -/
structure SyncOutcome where
  store : List StoredCourse
  change_log : List (Str × Course)
  result : SyncResult
deriving DecidableEq, Repr

/-- Mirrors `Database::sync_courses` in `db.rs`, with the database made an
explicit state. `is_first_run` is the emptiness of the store at entry; the
stale codes are the persisted codes minus the incoming codes. The Rust code
takes that difference between two `HashSet`s, whose iteration order is
unspecified; the model enumerates the difference in first-stored order. -/
def sync_courses (store : List StoredCourse) (current_courses : List Course)
    (now : Nat) : SyncOutcome :=
  let is_first_run := store.length == 0
  let existingCodes := (storeCodes store).dedup
  let currentCodes := current_courses.map Course.code
  let up := upsertPhase store current_courses now is_first_run
  let codesToRemove := existingCodes.filter (fun cd => !(currentCodes.contains cd))
  let rem := removePhase up.1 codesToRemove is_first_run
  { store := rem.1
    change_log := up.2.2 ++ rem.2.2
    result :=
      { added := up.2.1
        removed := rem.2.1
        is_first_run := is_first_run
        total_courses := current_courses.length } }

/-- Mirrors `ScrapeDiff` in `models.rs`. -/
structure ScrapeDiff where
  added : List Course
  removed : List Course
deriving DecidableEq, Repr

/-- Mirrors `ScrapeDiff::is_empty`. -/
def ScrapeDiff.is_empty (d : ScrapeDiff) : Bool :=
  d.added.isEmpty && d.removed.isEmpty

/-- Mirrors `filter_changes` in `diff.rs`: keep the added and removed courses
whose points match the filter. -/
def filter_changes (result : SyncResult) (filter : PointsFilter) : ScrapeDiff :=
  { added := result.added.filter (fun c => filter.matches c.points)
    removed := result.removed.filter (fun c => filter.matches c.points) }

/-- Mirrors `RunLog` in `db.rs` (the record handed to `log_run`); the
wall-clock duration is outside the model. -/
structure RunLog where
  total_courses_fetched : Nat
  raw_added_count : Nat
  raw_removed_count : Nat
  filtered_added_count : Nat
  filtered_removed_count : Nat
  filter_used : Str
  notification_sent : Bool
  is_first_run : Bool
  added_courses : List Str
  removed_courses : List Str
  duration_ms : Nat
deriving DecidableEq, Repr

/-- The outcomes of the effectful collaborators of one scrape cycle: the HTTP
fetch, the database sync, the per-notifier delivery results (as returned by
`NotifierChain::notify_all`), and the run-ledger append. -/
structure CycleOracle where
  fetchRes : Except Str (List Course)
  syncRes : Except Str SyncResult
  notifyResults : List (Str × Except Str Unit)
  logRunRes : Except Str Int

/-- The calls `run_scrape_cycle` makes to its collaborators, in order. -/
inductive CycleEvent where
  | fetchCall : CycleEvent
  | syncCall : CycleEvent
  | notifyCall (diff : ScrapeDiff) : CycleEvent
  | logRunCall (entry : RunLog) : CycleEvent
deriving DecidableEq, Repr

/-- Helper for `Except` success, mirroring Rust `Result::is_ok`. -/
def exceptIsOk {ε α : Type} (e : Except ε α) : Bool :=
  match e with
  | .ok _ => true
  | .error _ => false

/-- Mirrors the control flow of `run_scrape_cycle` in `main.rs`: a fetch or
sync failure aborts the cycle; notifications are attempted only on a
non-bootstrap run with changes that survive the filter; `notification_sent`
is true when at least one notifier succeeded; the run ledger is written last
and its failure is only warned about, never propagated. The second component
traces the collaborator calls in program order. -/
def run_scrape_cycle (o : CycleOracle) (filter : PointsFilter) :
    Except Str Unit × List CycleEvent :=
  match o.fetchRes with
  | .error e => (.error e, [CycleEvent.fetchCall])
  | .ok courses =>
    match o.syncRes with
    | .error e => (.error e, [CycleEvent.fetchCall, CycleEvent.syncCall])
    | .ok syncResult =>
      let filteredDiff := filter_changes syncResult filter
      let notification :=
        if syncResult.is_first_run then (false, ([] : List CycleEvent))
        else if !syncResult.has_changes then (false, [])
        else if filteredDiff.is_empty then (false, [])
        else (o.notifyResults.any (fun r => exceptIsOk r.2),
          [CycleEvent.notifyCall filteredDiff])
      let runLog : RunLog :=
        { total_courses_fetched := courses.length
          raw_added_count := syncResult.added.length
          raw_removed_count := syncResult.removed.length
          filtered_added_count := filteredDiff.added.length
          filtered_removed_count := filteredDiff.removed.length
          filter_used := filter.description
          notification_sent := notification.1
          is_first_run := syncResult.is_first_run
          added_courses := filteredDiff.added.map Course.code
          removed_courses := filteredDiff.removed.map Course.code
          duration_ms := 0 }
      -- `if let Err(e) = db.log_run(...) { warn!(...) }`: the ledger outcome
      -- is inspected only for logging and deliberately dropped here.
      let _ledgerOutcome := o.logRunRes
      (.ok (), [CycleEvent.fetchCall, CycleEvent.syncCall] ++ notification.2 ++
        [CycleEvent.logRunCall runLog])

/-- A minimal well-formed configuration: defaults only, no notifiers. -/
def cfgBase : Config :=
  { url := ("https://example.com").data
    db := ("uiobot.db").data
    database_url := none
    database_auth_token := none
    points_exact := none
    points_max := none
    points_min := none
    points_filter_expr := none
    verbose := false
    email_to := none
    email_from := none
    port := 3000
    sms_to := none
    sms_from := none }

/-- A configuration whose filter expression is unparseable and whose fallback
numeric fields are all unset. -/
def cfgUnparseableExpr : Config := { cfgBase with points_filter_expr := some ("abc").data }

/-- A configuration whose filter expression is the inverted range "10-5". -/
def cfgInvertedExpr : Config := { cfgBase with points_filter_expr := some ("10-5").data }

/-- A configuration whose numeric flags have min greater than max. -/
def cfgMinGtMax : Config := { cfgBase with points_min := some 5, points_max := some 2 }

/-- A table row whose link has a whitespace-only `href` attribute. -/
def wsUrlRow : Row :=
  [{ link := some { href := some [' '], text := ("A - B").data }, text := [] },
   { link := none, text := ("5").data }]

/-- A table row with a well-formed course link, for witness instantiation. -/
def sampleLinkRow : Row :=
  [{ link := some { href := some ("https://uio.no/IN1000").data,
                    text := ("IN1000 - Intro til programmering").data }, text := [] },
   { link := none, text := ("10").data }]

/-- A sample course for witness instantiation. -/
def sampleCourse : Course :=
  { code := ("IN1000").data, name := ("Intro").data, points := 10
    url := ("https://uio.no/IN1000").data, faculty := ("MN").data }

/-- Additional distinct sample courses for the synchronizer witnesses. -/
def courseA : Course :=
  { code := ("A1").data, name := ("Course A").data, points := 3
    url := [], faculty := ("F").data }

/-- Second sample course. -/
def courseB : Course :=
  { code := ("B2").data, name := ("Course B").data, points := 10
    url := [], faculty := ("F").data }

/-- Third sample course. -/
def courseC : Course :=
  { code := ("C3").data, name := ("Course C").data, points := 7
    url := [], faculty := ("G").data }

/-- A cycle oracle in which fetch, sync and one notifier succeed while the
run-ledger append fails. -/
def sampleOracle : CycleOracle :=
  { fetchRes := .ok [sampleCourse]
    syncRes := .ok { added := [sampleCourse], removed := [], is_first_run := false,
                     total_courses := 1 }
    notifyResults := [(("console").data, .ok ())]
    logRunRes := .error ("run-ledger write failed").data }

/-- C4: the filter-expression parser maps ">=5", "5+" and ">5" to
`Range(min=5, max=none)`; "<=10", "<10" and "10-" to `Range(min=none, max=10)`;
"5-10" to `Range(5,10)`; the empty and whitespace-only strings to the `None`
filter; a string matching no rule ("abc") signals failure with `none`. The
cascade is the source's, tried in the documented order; the trailing conjuncts
exhibit the order-sensitive guards: "5-" is not taken by the range rule (dash
in last position) but by the suffix rule, and "-5" (dash at position 0) falls
through to the exact rule. -/
theorem claim_C4_filter_expression_grammar :
    parse_points_filter_expr (">=5").data = some (PointsFilter.Range (some 5) none) ∧
    parse_points_filter_expr ("5+").data = some (PointsFilter.Range (some 5) none) ∧
    parse_points_filter_expr (">5").data = some (PointsFilter.Range (some 5) none) ∧
    parse_points_filter_expr ("<=10").data = some (PointsFilter.Range none (some 10)) ∧
    parse_points_filter_expr ("<10").data = some (PointsFilter.Range none (some 10)) ∧
    parse_points_filter_expr ("10-").data = some (PointsFilter.Range none (some 10)) ∧
    parse_points_filter_expr ("5-10").data = some (PointsFilter.Range (some 5) (some 10)) ∧
    parse_points_filter_expr ("").data = some PointsFilter.None ∧
    parse_points_filter_expr ("  ").data = some PointsFilter.None ∧
    parse_points_filter_expr ("abc").data = none ∧
    parse_points_filter_expr ("5-").data = some (PointsFilter.Range none (some 5)) ∧
    parse_points_filter_expr ("-5").data = some (PointsFilter.Exact (-5)) := by
  decide

/-- C5: `Exact(v)` matches `p` iff `|p - v| < 0.01`; `Range(min, max)` matches
`p` iff `p` is at least any set lower bound and at most any set upper bound
(inclusive); the `None` filter always matches; and `Range(none, none)` matches
every points value, behaving as `None`. -/
theorem claim_C5_filter_matching (p : ℚ) :
    (∀ v : ℚ, (PointsFilter.Exact v).matches p = true ↔ |p - v| < 1 / 100) ∧
    (∀ mn mx : Option ℚ, (PointsFilter.Range mn mx).matches p = true ↔
      ((∀ m ∈ mn, m ≤ p) ∧ (∀ m ∈ mx, p ≤ m))) ∧
    PointsFilter.None.matches p = true ∧
    (PointsFilter.Range none none).matches p = true := by
  refine ⟨fun v => ?_, fun mn mx => ?_, rfl, rfl⟩
  · simp [PointsFilter.matches]
  · cases mn <;> cases mx <;> simp [PointsFilter.matches]

/-- C7 counterexample: with the unparseable expression "abc" and no fallback
numeric fields, validation succeeds and the filter silently resolves to the
match-everything `None` filter — no configuration error surfaces anywhere,
contradicting the claim. -/
theorem claim_C7_counterexample :
    cfgUnparseableExpr.points_filter_expr = some ("abc").data ∧
    parse_points_filter_expr ("abc").data = Option.none ∧
    cfgUnparseableExpr.points_exact = none ∧
    cfgUnparseableExpr.points_min = none ∧
    cfgUnparseableExpr.points_max = none ∧
    Config.validate cfgUnparseableExpr = Except.ok () ∧
    Config.points_filter cfgUnparseableExpr = PointsFilter.None := by
  refine ⟨rfl, by decide, rfl, rfl, rfl, rfl, by decide⟩

/-- C7 as amended: when the configured expression fails to parse and no
fallback numeric field is set, no error surfaces — the filter resolves to the
match-everything `None` filter, and validation does not inspect the expression
at all (its outcome is unchanged by removing the expression). -/
theorem claim_C7_amended_silent_fallback (cfg : Config) (e : Str)
    (hexpr : cfg.points_filter_expr = some e)
    (hparse : parse_points_filter_expr e = none)
    (hexact : cfg.points_exact = none)
    (hmin : cfg.points_min = none)
    (hmax : cfg.points_max = none) :
    cfg.points_filter = PointsFilter.None ∧
    cfg.validate = Config.validate { cfg with points_filter_expr := none } := by
  constructor
  · simp [Config.points_filter, hexpr, hparse, Config.points_filter_fallback, hexact, hmin, hmax]
  · cases cfg
    rfl

/-- Witness for the amended C7 theorem at the concrete configuration. -/
theorem claim_C7_amended_silent_fallback_witness :
    Config.points_filter cfgUnparseableExpr = PointsFilter.None ∧
    Config.validate cfgUnparseableExpr =
      Config.validate { cfgUnparseableExpr with points_filter_expr := none } :=
  claim_C7_amended_silent_fallback cfgUnparseableExpr ("abc").data rfl (by decide) rfl rfl rfl

/-- C10: the parser accepts the inverted range "10-5" without rejection,
producing `Range(min=10, max=5)`; that filter matches no points value at all;
and the configuration validator accepts such an expression (it raises no
error), while its min-greater-than-max check does fire on the individual
numeric flags. -/
theorem claim_C10_inverted_range :
    parse_points_filter_expr ("10-5").data = some (PointsFilter.Range (some 10) (some 5)) ∧
    (∀ p : ℚ, (PointsFilter.Range (some 10) (some 5)).matches p = false) ∧
    Config.validate cfgInvertedExpr = Except.ok () ∧
    Config.points_filter cfgInvertedExpr = PointsFilter.Range (some 10) (some 5) ∧
    exceptIsOk (Config.validate cfgMinGtMax) = false := by
  refine ⟨by decide, fun p => ?_, rfl, by decide, rfl⟩
  have h : ¬ ((10 : ℚ) ≤ p ∧ p ≤ 5) := by
    rintro ⟨h1, h2⟩
    linarith
  simp only [PointsFilter.matches]
  rcases not_and_or.mp h with h1 | h1 <;> simp [h1]

/-- The right trim is `List.rdropWhile`. -/
theorem trimRightChars_eq_rdropWhile (l : Str) :
    trimRightChars l = l.rdropWhile Char.isWhitespace := rfl

/-- A left trim distributes over an append when the left part survives it. -/
theorem trimLeftChars_append {X : Str} (Z : Str) (h : trimLeftChars X ≠ []) :
    trimLeftChars (X ++ Z) = trimLeftChars X ++ Z := by
  unfold trimLeftChars at *
  rw [List.dropWhile_append, if_neg]
  simpa [List.isEmpty_iff] using h

/-- A right trim distributes over an append when the right part survives it. -/
theorem trimRightChars_append (Z : Str) {Y : Str} (h : trimRightChars Y ≠ []) :
    trimRightChars (Z ++ Y) = Z ++ trimRightChars Y := by
  unfold trimRightChars at *
  have h2 : ¬ ((Y.reverse.dropWhile Char.isWhitespace).isEmpty = true) := by
    simp only [List.isEmpty_iff]
    intro hh
    exact h (by rw [hh]; rfl)
  rw [List.reverse_append, List.dropWhile_append, if_neg h2, List.reverse_append,
    List.reverse_reverse]

/-- The left trim is empty exactly on whitespace-only strings. -/
theorem trimLeftChars_eq_nil_iff {l : Str} :
    trimLeftChars l = [] ↔ ∀ x ∈ l, x.isWhitespace = true := List.dropWhile_eq_nil_iff

/-- The right trim is empty exactly on whitespace-only strings. -/
theorem trimRightChars_eq_nil_iff {l : Str} :
    trimRightChars l = [] ↔ ∀ x ∈ l, x.isWhitespace = true := by
  rw [trimRightChars_eq_rdropWhile]
  exact List.rdropWhile_eq_nil_iff

/-- A string with a nonempty trim survives the left trim. -/
theorem strTrim_ne_nil_left {l : Str} (h : strTrim l ≠ []) : trimLeftChars l ≠ [] := by
  intro hl
  exact h (by unfold strTrim; rw [hl]; rfl)

/-- A string with a nonempty trim survives the right trim. -/
theorem strTrim_ne_nil_right {l : Str} (h : strTrim l ≠ []) : trimRightChars l ≠ [] := by
  intro hr
  apply h
  unfold strTrim
  rw [trimLeftChars_eq_nil_iff.mpr (trimRightChars_eq_nil_iff.mp hr)]
  rfl

/-- A whitespace-only trimmed string is empty. -/
theorem strTrim_ws_only {l : Str} (h : ∀ x ∈ strTrim l, x.isWhitespace = true) :
    strTrim l = [] := by
  by_contra hne
  have hne2 : (trimLeftChars l).rdropWhile Char.isWhitespace ≠ [] := hne
  have hlast := List.rdropWhile_last_not Char.isWhitespace (trimLeftChars l) hne2
  apply hlast
  apply h
  exact List.getLast_mem hne2

/-- The head that survives a `dropWhile` falsifies the predicate. -/
theorem dropWhile_head_not {p : Char → Bool} :
    ∀ {l : Str} {c : Char} {rest : Str}, l.dropWhile p = c :: rest → p c = false := by
  intro l
  induction l with
  | nil =>
    intro c rest h
    simp at h
  | cons a l' ih =>
    intro c rest h
    rw [List.dropWhile_cons] at h
    split at h
    · exact ih h
    · next hpa =>
      injection h with h1 _
      subst h1
      simpa using hpa

/-- The left and right trims commute. -/
theorem trim_comm (l : Str) :
    trimLeftChars (trimRightChars l) = trimRightChars (trimLeftChars l) := by
  by_cases h : trimLeftChars l = []
  · have hws : ∀ x ∈ l, x.isWhitespace = true := trimLeftChars_eq_nil_iff.mp h
    rw [h, trimRightChars_eq_nil_iff.mpr hws]
    rfl
  · have hsplit : l.takeWhile Char.isWhitespace ++ trimLeftChars l = l :=
      List.takeWhile_append_dropWhile _ _
    obtain ⟨c, rest, hcr⟩ : ∃ c rest, trimLeftChars l = c :: rest := by
      cases hrc : trimLeftChars l with
      | nil => exact absurd hrc h
      | cons c rest => exact ⟨c, rest, rfl⟩
    have hc : c.isWhitespace = false := dropWhile_head_not hcr
    have hrne : trimRightChars (trimLeftChars l) ≠ [] := by
      intro hnil
      have hws := trimRightChars_eq_nil_iff.mp hnil c (by rw [hcr]; exact List.mem_cons_self _ _)
      rw [hc] at hws
      exact Bool.false_ne_true hws
    have hWws : ∀ x ∈ l.takeWhile Char.isWhitespace, x.isWhitespace = true :=
      fun x hx => List.mem_takeWhile_imp hx
    have step1 : trimRightChars l =
        l.takeWhile Char.isWhitespace ++ trimRightChars (trimLeftChars l) := by
      conv_lhs => rw [← hsplit]
      exact trimRightChars_append _ hrne
    rw [step1]
    have step2 : trimLeftChars
        (l.takeWhile Char.isWhitespace ++ trimRightChars (trimLeftChars l)) =
        trimLeftChars (trimRightChars (trimLeftChars l)) := by
      unfold trimLeftChars
      rw [List.dropWhile_append, if_pos]
      simp only [List.isEmpty_iff, List.dropWhile_eq_nil_iff]
      exact hWws
    rw [step2]
    obtain ⟨d, td, hdt⟩ : ∃ d td, trimRightChars (trimLeftChars l) = d :: td := by
      cases hx : trimRightChars (trimLeftChars l) with
      | nil => exact absurd hx hrne
      | cons d td => exact ⟨d, td, rfl⟩
    have hpref : trimRightChars (trimLeftChars l) <+: trimLeftChars l := by
      rw [trimRightChars_eq_rdropWhile]
      exact List.rdropWhile_prefix _ _
    obtain ⟨t, ht⟩ := hpref
    have hh1 : (trimLeftChars l).head? = some c := by rw [hcr]; rfl
    have hh2 : (trimLeftChars l).head? = some d := by
      rw [← ht, List.head?_append_of_ne_nil _ (by rw [hdt]; exact List.cons_ne_nil _ _), hdt]
      rfl
    have hdc : d = c := by
      have := hh1.symm.trans hh2
      injection this with h3
      exact h3.symm
    subst hdc
    rw [hdt]
    unfold trimLeftChars
    rw [List.dropWhile_cons, if_neg]
    simp [hc]

/-- Trimming is unchanged by a prior left trim. -/
theorem strTrim_idem_left (X : Str) : strTrim (trimLeftChars X) = strTrim X := by
  unfold strTrim trimLeftChars
  rw [List.dropWhile_idempotent]

/-- Trimming is unchanged by a prior right trim. -/
theorem strTrim_idem_right (Y : Str) : strTrim (trimRightChars Y) = strTrim Y := by
  unfold strTrim
  rw [trim_comm]
  simp only [trimRightChars_eq_rdropWhile]
  rw [List.rdropWhile_idempotent]

/-- Trimming a text of the form `X ++ " - " ++ Y` removes exactly the leading
whitespace of `X` and the trailing whitespace of `Y` when neither side is
whitespace-only. -/
theorem strTrim_append_sep (X Y : Str) (hX : strTrim X ≠ []) (hY : strTrim Y ≠ []) :
    strTrim (X ++ (" - ").data ++ Y) =
      trimLeftChars X ++ (" - ").data ++ trimRightChars Y := by
  unfold strTrim
  have h1 : trimLeftChars (X ++ (" - ").data ++ Y) =
      trimLeftChars X ++ ((" - ").data ++ Y) := by
    rw [List.append_assoc]
    exact trimLeftChars_append _ (strTrim_ne_nil_left hX)
  rw [h1, ← List.append_assoc]
  exact trimRightChars_append _ (strTrim_ne_nil_right hY)

/-- `isPrefixOf` only looks at the first `sep.length` characters. -/
theorem isPrefixOf_congr_take (sep : Str) :
    ∀ (l m : Str), l.take sep.length = m.take sep.length →
      sep.isPrefixOf l = sep.isPrefixOf m := by
  induction sep with
  | nil =>
    intro l m _
    cases l <;> cases m <;> rfl
  | cons s ss ih =>
    intro l m h
    cases l with
    | nil =>
      cases m with
      | nil => rfl
      | cons b m' => simp at h
    | cons a l' =>
      cases m with
      | nil => simp at h
      | cons b m' =>
        simp only [List.length_cons, List.take_succ_cons, List.cons.injEq] at h
        obtain ⟨h1, h2⟩ := h
        subst h1
        show (s == a && ss.isPrefixOf l') = (s == a && ss.isPrefixOf m')
        rw [ih l' m' h2]

/-- `splitFirst` at a nonempty list starting with the separator. -/
theorem splitFirst_pos (sep l : Str) (hl : l ≠ []) (h : sep.isPrefixOf l = true) :
    splitFirst sep l = some ([], l.drop sep.length) := by
  cases l with
  | nil => exact absurd rfl hl
  | cons c rest => simp [splitFirst, h]

/-- `splitFirst` steps over a head that does not start the separator. -/
theorem splitFirst_neg (sep : Str) (c : Char) (rest : Str)
    (h : sep.isPrefixOf (c :: rest) = false) :
    splitFirst sep (c :: rest) = (splitFirst sep rest).map (fun p => (c :: p.1, p.2)) := by
  simp [splitFirst, h]

/-- Unfolding equation of `containsSub` at a cons. -/
theorem containsSub_cons (sep : Str) (c : Char) (rest : Str) :
    containsSub sep (c :: rest) = (sep.isPrefixOf (c :: rest) || containsSub sep rest) := rfl

/-- When the separator does not occur, `splitFirst` finds nothing. -/
theorem splitFirst_none_of_not_contains (sep : Str) (hsep : sep ≠ []) :
    ∀ l : Str, containsSub sep l = false → splitFirst sep l = none := by
  intro l
  induction l with
  | nil =>
    intro h
    simp [splitFirst, List.isEmpty_iff, hsep]
  | cons c rest ih =>
    intro h
    rw [containsSub_cons, Bool.or_eq_false_iff] at h
    rw [splitFirst_neg sep c rest h.1, ih h.2]
    rfl

/-- `splitFirst " - "` splits `A ++ " - " ++ B` at the separator shown,
provided no earlier occurrence exists: none inside `A` and none straddling
`A`'s end into the separator (both captured by probing `A ++ " -"`). -/
theorem splitFirst_at_first_sep (B : Str) :
    ∀ A : Str, containsSub (" - ").data (A ++ [' ', '-']) = false →
      splitFirst (" - ").data (A ++ (" - ").data ++ B) = some (A, B) := by
  intro A
  induction A with
  | nil =>
    intro _
    rw [List.nil_append]
    rw [splitFirst_pos _ _ (by simp) (List.isPrefixOf_iff_prefix.mpr (List.prefix_append _ _))]
    rw [List.drop_left]
  | cons a A' ih =>
    intro h
    rw [List.cons_append, containsSub_cons, Bool.or_eq_false_iff] at h
    obtain ⟨h1, h2⟩ := h
    have hlist : (a :: A') ++ (" - ").data ++ B = a :: (A' ++ (" - ").data ++ B) := by
      simp
    have htake : (a :: (A' ++ (" - ").data ++ B)).take ((" - ").data).length =
        (a :: (A' ++ [' ', '-'])).take ((" - ").data).length := by
      show (a :: (A' ++ (" - ").data ++ B)).take 3 = (a :: (A' ++ [' ', '-'])).take 3
      simp only [List.take_succ_cons, List.cons.injEq, true_and]
      rw [show A' ++ (" - ").data ++ B = A' ++ ((" - ").data ++ B) from by simp]
      rw [List.take_append_eq_append_take, List.take_append_eq_append_take]
      rcases A' with _ | ⟨x, _ | ⟨y, A''⟩⟩
      · rfl
      · rfl
      · simp
    have hpref : (" - ").data.isPrefixOf (a :: (A' ++ (" - ").data ++ B)) = false := by
      rw [isPrefixOf_congr_take _ _ _ htake]
      exact h1
    rw [hlist, splitFirst_neg _ _ _ hpref, ih h2]
    rfl

/-- `parse_course_text` on text of the form `X ++ " - " ++ Y`: the code is `X`
trimmed and the name is `Y` trimmed, provided the shown separator is the first
occurrence (`X` contains no earlier one, including at its boundary) and
neither side is whitespace-only. -/
theorem parse_course_text_sep (X Y : Str)
    (hocc : containsSub (" - ").data (trimLeftChars X ++ [' ', '-']) = false)
    (hX : strTrim X ≠ []) (hY : strTrim Y ≠ []) :
    parse_course_text (X ++ (" - ").data ++ Y) = (strTrim X, strTrim Y) := by
  unfold parse_course_text
  dsimp only
  rw [strTrim_append_sep X Y hX hY,
    splitFirst_at_first_sep (trimRightChars Y) (trimLeftChars X) hocc]
  dsimp only
  rw [strTrim_idem_left, strTrim_idem_right]

/-- `parse_course_text` on text without the separator: the whole trimmed text
is the code and the name is empty. -/
theorem parse_course_text_no_sep (t : Str)
    (h : containsSub (" - ").data (strTrim t) = false) :
    parse_course_text t = (strTrim t, []) := by
  unfold parse_course_text
  dsimp only
  rw [splitFirst_none_of_not_contains _ (by decide) _ h]

/-- A row with fewer than two cells parses to nothing. -/
theorem parseRow_short (faculty : Str) (row : Row) (h : row.length < 2) :
    parseRow faculty row = none := by
  rcases row with _ | ⟨a, _ | ⟨b, r⟩⟩
  · rfl
  · rfl
  · simp only [List.length_cons] at h
    omega

/-- A row whose resulting course code is empty parses to nothing. -/
theorem parseRow_empty_code (faculty : Str) (first second : Cell) (rest : List Cell)
    (h : (match first.link with
      | some a => (parse_course_text a.text).1
      | none => (parse_course_text first.text).1) = []) :
    parseRow faculty (first :: second :: rest) = none := by
  cases hl : first.link with
  | some a =>
    rw [hl] at h
    simp only [parseRow, hl]
    simp [h]
    exact fun hx => absurd h hx
  | none =>
    rw [hl] at h
    simp only [parseRow, hl]
    simp [h]
    exact fun hx => absurd h hx

/-- A row whose points text does not parse contributes no course. -/
theorem parseRow_bad_points (faculty : Str) (first second : Cell) (rest : List Cell)
    (h : parse_points second.text = none) :
    parseRow faculty (first :: second :: rest) = none := by
  simp only [parseRow]
  cases hl : first.link <;> dsimp only <;> split <;> simp [h]

/-- The name component of `parse_course_text` is whitespace-free at the ends:
a whitespace-only name collapses to the empty string. -/
theorem parse_course_text_snd_ws (t : Str)
    (h : ∀ x ∈ (parse_course_text t).2, x.isWhitespace = true) :
    (parse_course_text t).2 = [] := by
  unfold parse_course_text at *
  dsimp only at *
  cases hs : splitFirst ([' ', '-', ' ']) (strTrim t) with
  | none => rfl
  | some p =>
    rcases p with ⟨b, a⟩
    rw [hs] at h
    dsimp only at h ⊢
    exact strTrim_ws_only h

/-- C6: a row with fewer than two cells contributes zero courses; text of the
form `X ++ " - " ++ Y` (with the shown separator its first occurrence and
neither side whitespace-only) yields code `X` trimmed and name `Y` trimmed;
text without the separator yields the whole trimmed text as the code and an
empty name; a row whose resulting code is empty is skipped; a row whose points
text fails to parse is skipped; the points text is trimmed, commas are
replaced by dots and the result parsed as a float (witnessed on the spec's
five examples); and a skipped row never aborts the surrounding table
extraction — the other rows' courses are unchanged. -/
theorem claim_C6_row_parsing :
    (∀ (faculty : Str) (row : Row), row.length < 2 → parseRow faculty row = none) ∧
    (∀ X Y : Str, containsSub (" - ").data (trimLeftChars X ++ [' ', '-']) = false →
      strTrim X ≠ [] → strTrim Y ≠ [] →
      parse_course_text (X ++ (" - ").data ++ Y) = (strTrim X, strTrim Y)) ∧
    (∀ t : Str, containsSub (" - ").data (strTrim t) = false →
      parse_course_text t = (strTrim t, [])) ∧
    (∀ (faculty : Str) (first second : Cell) (rest : List Cell),
      (match first.link with
        | some a => (parse_course_text a.text).1
        | none => (parse_course_text first.text).1) = [] →
      parseRow faculty (first :: second :: rest) = none) ∧
    (∀ (faculty : Str) (first second : Cell) (rest : List Cell),
      parse_points second.text = none →
      parseRow faculty (first :: second :: rest) = none) ∧
    parse_points ("10").data = some 10 ∧
    parse_points ("2.5").data = some (5 / 2) ∧
    parse_points ("2,5").data = some (5 / 2) ∧
    parse_points ("  10  ").data = some 10 ∧
    parse_points ("invalid").data = none ∧
    (∀ (faculty : Str) (rows1 rows2 : Table) (badRow : Row),
      parseRow faculty badRow = none →
      parse_table faculty (rows1 ++ badRow :: rows2) =
        parse_table faculty rows1 ++ parse_table faculty rows2) := by
  refine ⟨parseRow_short, parse_course_text_sep, parse_course_text_no_sep,
    parseRow_empty_code, parseRow_bad_points,
    by decide, ?_, ?_, by decide, by decide, ?_⟩
  · rw [show parse_points ("2.5").data =
        some ((digitsVal ("2").data : ℚ) + (digitsVal ("5").data : ℚ) / 10 ^ (1 : Nat)) from rfl,
      show digitsVal ("2").data = 2 from by decide,
      show digitsVal ("5").data = 5 from by decide]
    norm_num
  · rw [show parse_points ("2,5").data =
        some ((digitsVal ("2").data : ℚ) + (digitsVal ("5").data : ℚ) / 10 ^ (1 : Nat)) from rfl,
      show digitsVal ("2").data = 2 from by decide,
      show digitsVal ("5").data = 5 from by decide]
    norm_num
  · intro faculty rows1 rows2 badRow h
    simp [parse_table, List.filterMap_append, List.filterMap_cons, h]

/-- Witness for C6 at concrete rows and texts. -/
theorem claim_C6_row_parsing_witness :
    parseRow ("F").data [] = none ∧
    parse_course_text (("IN1000").data ++ (" - ").data ++ ("Intro").data) =
      (strTrim ("IN1000").data, strTrim ("Intro").data) ∧
    parse_course_text ("IN1000").data = (strTrim ("IN1000").data, []) ∧
    parseRow ("F").data
      [{ link := none, text := ("   ").data }, { link := none, text := ("5").data }] = none ∧
    parseRow ("F").data
      [{ link := none, text := ("X").data }, { link := none, text := ("bad").data }] = none ∧
    parse_table ("F").data
      ([] ++ [{ link := none, text := ("X").data }, { link := none, text := ("bad").data }] :: []) =
      parse_table ("F").data [] ++ parse_table ("F").data [] := by
  have h := claim_C6_row_parsing
  exact ⟨h.1 _ _ (by decide), h.2.1 _ _ (by decide) (by decide) (by decide),
    h.2.2.1 _ (by decide), h.2.2.2.1 _ _ _ _ (by decide),
    h.2.2.2.2.1 _ _ _ _ (by decide),
    h.2.2.2.2.2.2.2.2.2.2 _ _ _ _ (h.2.2.2.2.1 _ _ _ _ (by decide))⟩

/-- C8 counterexample: a row whose link carries a whitespace-only `href`
produces a course whose `url` is that whitespace string, not the empty
string — the extractor never trims the url. -/
theorem claim_C8_counterexample :
    parseRow ("F").data wsUrlRow =
      some { code := ("A").data, name := ("B").data, points := 5, url := [' '],
             faculty := ("F").data } ∧
    ([' '] : Str) ≠ [] ∧
    (∀ c ∈ ([' '] : Str), c.isWhitespace = true) := by
  refine ⟨by decide, by decide, by decide⟩

/-- C8 as amended: a whitespace-only course name is treated as empty (the name
is always trimmed by `parse_course_text`), while the url is taken verbatim
from the link's `href` attribute — it is empty exactly when the cell has no
link or the link has no `href`, and whitespace is preserved. -/
theorem claim_C8_amended_name_trimmed_url_verbatim :
    (∀ (faculty : Str) (row : Row) (c : Course), parseRow faculty row = some c →
      (∀ x ∈ c.name, x.isWhitespace = true) → c.name = []) ∧
    (∀ (faculty : Str) (first second : Cell) (rest : List Cell) (a : Link) (c : Course),
      first.link = some a → parseRow faculty (first :: second :: rest) = some c →
      c.url = a.href.getD []) ∧
    (∀ (faculty : Str) (first second : Cell) (rest : List Cell) (c : Course),
      first.link = none → parseRow faculty (first :: second :: rest) = some c →
      c.url = []) := by
  refine ⟨?_, ?_, ?_⟩
  · intro faculty row c hsome hws
    rcases row with _ | ⟨first, _ | ⟨second, rest⟩⟩
    · exact absurd hsome (by simp [parseRow])
    · exact absurd hsome (by simp [parseRow])
    · simp only [parseRow] at hsome
      cases hl : first.link with
      | some a =>
        rw [hl] at hsome
        dsimp only at hsome
        split at hsome
        · exact absurd hsome (by simp)
        · cases hp : parse_points second.text <;> rw [hp] at hsome
          · exact absurd hsome (by simp)
          · injection hsome with hc
            subst hc
            exact parse_course_text_snd_ws _ hws
      | none =>
        rw [hl] at hsome
        dsimp only at hsome
        split at hsome
        · exact absurd hsome (by simp)
        · cases hp : parse_points second.text <;> rw [hp] at hsome
          · exact absurd hsome (by simp)
          · injection hsome with hc
            subst hc
            exact parse_course_text_snd_ws _ hws
  · intro faculty first second rest a c hl hsome
    simp only [parseRow, hl] at hsome
    split at hsome
    · exact absurd hsome (by simp)
    · cases hp : parse_points second.text <;> rw [hp] at hsome
      · exact absurd hsome (by simp)
      · injection hsome with hc
        subst hc
        rfl
  · intro faculty first second rest c hl hsome
    simp only [parseRow, hl] at hsome
    split at hsome
    · exact absurd hsome (by simp)
    · cases hp : parse_points second.text <;> rw [hp] at hsome
      · exact absurd hsome (by simp)
      · injection hsome with hc
        subst hc
        rfl

/-- Witness for the amended C8 theorem at concrete rows. -/
theorem claim_C8_amended_witness :
    (match parseRow ("F").data
      [{ link := none, text := ("A -    ").data }, { link := none, text := ("5").data }] with
     | some c => c.name
     | none => ("x").data) = [] ∧
    (match parseRow ("F").data wsUrlRow with
     | some c => c.url
     | none => []) = (some [' '] : Option Str).getD [] ∧
    (match parseRow ("F").data
      [{ link := none, text := ("X").data }, { link := none, text := ("5").data }] with
     | some c => c.url
     | none => ("x").data) = [] := by
  have h := claim_C8_amended_name_trimmed_url_verbatim
  refine ⟨?_, ?_, ?_⟩
  · have := h.1 ("F").data
      [{ link := none, text := ("A -    ").data }, { link := none, text := ("5").data }]
      { code := ("A -").data, name := [], points := 5, url := [], faculty := ("F").data }
      (by decide) (by decide)
    decide
  · have := h.2.1 ("F").data
      { link := some { href := some [' '], text := ("A - B").data }, text := [] }
      { link := none, text := ("5").data } []
      { href := some [' '], text := ("A - B").data }
      { code := ("A").data, name := ("B").data, points := 5, url := [' '],
        faculty := ("F").data }
      (by decide) (by decide)
    decide
  · have := h.2.2 ("F").data
      { link := none, text := ("X").data } { link := none, text := ("5").data } []
      { code := ("X").data, name := [], points := 5, url := [], faculty := ("F").data }
      (by decide) (by decide)
    decide

/-- Whether a row parses is independent of the faculty label: the faculty only
decorates the produced course. -/
theorem parseRow_isSome_faculty (f g : Str) (row : Row) :
    (parseRow f row).isSome = (parseRow g row).isSome := by
  rcases row with _ | ⟨first, _ | ⟨second, rest⟩⟩
  · rfl
  · rfl
  · simp only [parseRow]
    cases hl : first.link with
    | some a =>
      dsimp only
      split
      · rfl
      · cases parse_points second.text <;> rfl
    | none =>
      dsimp only
      split
      · rfl
      · cases parse_points second.text <;> rfl

/-- Whether a table yields at least one course is independent of the faculty
label passed to `parse_table`. -/
theorem parse_table_isEmpty_faculty (f g : Str) (t : Table) :
    (parse_table f t).isEmpty = (parse_table g t).isEmpty := by
  induction t with
  | nil => rfl
  | cons row rows ih =>
    simp only [parse_table, List.filterMap_cons]
    have h := parseRow_isSome_faculty f g row
    cases hf : parseRow f row <;> cases hg : parseRow g row <;> rw [hf, hg] at h
    · exact ih
    · simp at h
    · simp at h
    · rfl

/-- The table loop of `parse_courses`, started at slot `n`, equals the
positional pairing of the spec: enumerate exactly the tables that yield at
least one parsed course, from `n`, and give the table at slot `i` the faculty
at index `i`. -/
theorem parseCoursesLoop_eq (fm : List Str) :
    ∀ (tables : List Table) (n : Nat),
      parseCoursesLoop fm tables n =
        (((tables.filter (fun t => !(parse_table unknownFaculty t).isEmpty)).enumFrom n).map
          (fun p => parse_table (facultyAt fm p.1) p.2)).flatten := by
  intro tables
  induction tables with
  | nil => intro n; rfl
  | cons t rest ih =>
    intro n
    by_cases h : (parse_table (facultyAt fm n) t).isEmpty = true
    · have h2 : (parse_table unknownFaculty t).isEmpty = true := by
        rw [← parse_table_isEmpty_faculty (facultyAt fm n) unknownFaculty t]
        exact h
      have hl : parseCoursesLoop fm (t :: rest) n = parseCoursesLoop fm rest n := by
        simp [parseCoursesLoop, h]
      rw [hl, ih n, List.filter_cons, h2]
      simp
    · have h2 : (parse_table unknownFaculty t).isEmpty = false := by
        rw [← parse_table_isEmpty_faculty (facultyAt fm n) unknownFaculty t]
        exact eq_false_of_ne_true h
      have hl : parseCoursesLoop fm (t :: rest) n =
          parse_table (facultyAt fm n) t ++ parseCoursesLoop fm rest (n + 1) := by
        simp [parseCoursesLoop, h]
      rw [hl, ih (n + 1), List.filter_cons, h2]
      simp [List.enumFrom_cons]

/-- C2: `parse_courses` implements exactly the positional pairing the spec
describes — the Nth table yielding at least one parsed course is assigned the
faculty at index N of the faculty index (0-based, counting only yielding
tables), a zero-yield table consumes no slot, and a yielding table whose slot
reaches past the faculty index gets the sentinel "Unknown Faculty". -/
theorem claim_C2_positional_pairing (headings : List Heading) (tables : List Table) :
    parse_courses headings tables = specPositionalPairing (buildFacultyMap headings) tables := by
  unfold parse_courses specPositionalPairing
  rw [parseCoursesLoop_eq, List.enum_eq_enumFrom]

/-- An upsert adds the course's code to the persisted code set and keeps all
existing codes. -/
theorem storeCodes_upsert (store : List StoredCourse) (c : Course) (now : Nat) (cd : Str) :
    cd ∈ storeCodes (upsert_course store c now).1 ↔
      cd ∈ storeCodes store ∨ cd = c.code := by
  unfold upsert_course
  split
  · next hany =>
    dsimp only
    have hcodes : storeCodes (store.map (fun s =>
        if s.course.code == c.code then
          { course := c, first_seen_at := s.first_seen_at, last_seen_at := now }
        else s)) = storeCodes store := by
      unfold storeCodes
      rw [List.map_map]
      apply List.map_congr_left
      intro s _
      dsimp only [Function.comp]
      split
      · next heq => exact (beq_iff_eq.mp heq).symm
      · rfl
    rw [hcodes]
    have hc : c.code ∈ storeCodes store := by
      obtain ⟨s, hs, hbeq⟩ := List.any_eq_true.mp hany
      exact beq_iff_eq.mp hbeq ▸ List.mem_map_of_mem _ hs
    constructor
    · exact Or.inl
    · rintro (hmem | hEq)
      · exact hmem
      · exact hEq ▸ hc
  · dsimp only
    unfold storeCodes
    rw [List.map_append]
    simp [List.mem_append]

/-- The upsert phase makes the persisted code set the union of the old codes
and the incoming codes. -/
theorem storeCodes_upsertPhase (now : Nat) (fr : Bool) :
    ∀ (cs : List Course) (store : List StoredCourse) (cd : Str),
      cd ∈ storeCodes (upsertPhase store cs now fr).1 ↔
        cd ∈ storeCodes store ∨ cd ∈ cs.map Course.code := by
  intro cs
  induction cs with
  | nil =>
    intro store cd
    simp [upsertPhase]
  | cons c rest ih =>
    intro store cd
    simp only [upsertPhase]
    split <;>
    · rw [ih, storeCodes_upsert]
      simp only [List.map_cons, List.mem_cons]
      tauto

/-- A removal deletes exactly the rows with the given code. -/
theorem storeCodes_remove (store : List StoredCourse) (code cd : Str) :
    cd ∈ storeCodes (remove_course store code).1 ↔
      cd ∈ storeCodes store ∧ cd ≠ code := by
  unfold remove_course
  cases hf : store.find? (fun s => s.course.code == code) with
  | some s =>
    dsimp only
    unfold storeCodes
    simp only [List.mem_map, List.mem_filter, Bool.not_eq_true', beq_eq_false_iff_ne]
    constructor
    · rintro ⟨x, ⟨hx, hne⟩, hcd⟩
      exact ⟨⟨x, hx, hcd⟩, hcd ▸ hne⟩
    · rintro ⟨⟨x, hx, hcd⟩, hne⟩
      exact ⟨x, ⟨hx, hcd ▸ hne⟩, hcd⟩
  | none =>
    dsimp only
    have hnone := List.find?_eq_none.mp hf
    constructor
    · intro hmem
      refine ⟨hmem, ?_⟩
      rintro rfl
      obtain ⟨x, hx, hcd⟩ := List.mem_map.mp hmem
      exact hnone x hx (beq_iff_eq.mpr hcd)
    · exact And.left

/-- The removal phase deletes exactly the rows whose codes are listed. -/
theorem storeCodes_removePhase (fr : Bool) :
    ∀ (codes : List Str) (store : List StoredCourse) (cd : Str),
      cd ∈ storeCodes (removePhase store codes fr).1 ↔
        cd ∈ storeCodes store ∧ cd ∉ codes := by
  intro codes
  induction codes with
  | nil =>
    intro store cd
    simp [removePhase]
  | cons c0 rest ih =>
    intro store cd
    simp only [removePhase]
    have hgoal : ∀ step2 : Option Course,
        (match step2 with
          | some course =>
            if !fr then
              ((removePhase (remove_course store c0).1 rest fr).1,
               course :: (removePhase (remove_course store c0).1 rest fr).2.1,
               (("removed").data, course) :: (removePhase (remove_course store c0).1 rest fr).2.2)
            else removePhase (remove_course store c0).1 rest fr
          | none => removePhase (remove_course store c0).1 rest fr).1 =
        (removePhase (remove_course store c0).1 rest fr).1 := by
      intro step2
      cases step2
      · rfl
      · dsimp only
        split <;> rfl
    rw [hgoal, ih, storeCodes_remove]
    simp only [List.mem_cons]
    tauto

/-- C1: after `sync_courses`, the persisted code set equals exactly the set of
incoming codes — every incoming code is present and every previously persisted
code absent from the incoming list has been deleted, for every starting store
state and every incoming list. -/
theorem claim_C1_sync_code_set (store : List StoredCourse) (current : List Course)
    (now : Nat) (cd : Str) :
    cd ∈ storeCodes (sync_courses store current now).store ↔
      cd ∈ current.map Course.code := by
  unfold sync_courses
  dsimp only
  rw [storeCodes_removePhase, storeCodes_upsertPhase]
  have hrem : cd ∈ (storeCodes store).dedup.filter
      (fun x => !((current.map Course.code).contains x)) ↔
      (cd ∈ storeCodes store ∧ cd ∉ current.map Course.code) := by
    simp [List.mem_filter, List.mem_dedup]
  constructor
  · rintro ⟨hin, hnot⟩
    rw [hrem] at hnot
    rcases hin with hS | hC
    · by_contra hnc
      exact hnot ⟨hS, hnc⟩
    · exact hC
  · intro hC
    refine ⟨Or.inr hC, ?_⟩
    rw [hrem]
    rintro ⟨_, hnc⟩
    exact hnc hC

/-- Upserting courses whose codes are all fresh and pairwise distinct appends
them to the store, each with both timestamps set to `now`. -/
theorem upsertPhase_fresh (now : Nat) (fr : Bool) :
    ∀ (cs : List Course) (store : List StoredCourse),
      (∀ x ∈ cs, x.code ∉ storeCodes store) → (cs.map Course.code).Nodup →
      (upsertPhase store cs now fr).1 =
        store ++ cs.map (fun x =>
          { course := x, first_seen_at := now, last_seen_at := now }) := by
  intro cs
  induction cs with
  | nil =>
    intro store _ _
    simp [upsertPhase]
  | cons c rest ih =>
    intro store hfresh hnd
    have hins : upsert_course store c now =
        (store ++ [{ course := c, first_seen_at := now, last_seen_at := now }], true) := by
      unfold upsert_course
      rw [if_neg]
      intro hany
      obtain ⟨s, hs, hbeq⟩ := List.any_eq_true.mp hany
      exact hfresh c (List.mem_cons_self _ _)
        (beq_iff_eq.mp hbeq ▸ List.mem_map_of_mem _ hs)
    have hnd2 := hnd
    rw [List.map_cons, List.nodup_cons] at hnd2
    have hfresh2 : ∀ x ∈ rest, x.code ∉ storeCodes
        (store ++ [{ course := c, first_seen_at := now, last_seen_at := now }]) := by
      intro x hx hmem
      unfold storeCodes at hmem
      rw [List.map_append] at hmem
      rcases List.mem_append.mp hmem with hmem1 | hmem1
      · exact hfresh x (List.mem_cons_of_mem _ hx) hmem1
      · simp only [List.map_cons, List.map_nil, List.mem_singleton] at hmem1
        exact hnd2.1 (hmem1 ▸ List.mem_map_of_mem _ hx)
    simp only [upsertPhase]
    rw [hins]
    dsimp only
    split <;>
    · rw [ih _ hfresh2 hnd2.2]
      simp

/-- On the bootstrap run, the upsert phase reports nothing as added and logs
no changes. -/
theorem upsertPhase_firstRun (now : Nat) :
    ∀ (cs : List Course) (store : List StoredCourse),
      (upsertPhase store cs now true).2.1 = [] ∧
      (upsertPhase store cs now true).2.2 = [] := by
  intro cs
  induction cs with
  | nil =>
    intro store
    exact ⟨rfl, rfl⟩
  | cons c rest ih =>
    intro store
    simp only [upsertPhase]
    simpa using ih (upsert_course store c now).1

/-- Upserting courses whose codes all already exist only rewrites rows in
place: the store becomes a row-wise image under a code-preserving map that
fixes every row whose code is not incoming. -/
theorem upsertPhase_update (now : Nat) (fr : Bool) :
    ∀ (cs : List Course) (store : List StoredCourse),
      (∀ x ∈ cs, x.code ∈ storeCodes store) →
      ∃ G : StoredCourse → StoredCourse,
        (upsertPhase store cs now fr).1 = store.map G ∧
        (∀ s, (G s).course.code = s.course.code) ∧
        (∀ s, s.course.code ∉ cs.map Course.code → G s = s) := by
  intro cs
  induction cs with
  | nil =>
    intro store _
    exact ⟨id, by simp [upsertPhase], fun s => rfl, fun s _ => rfl⟩
  | cons c rest ih =>
    intro store hmem
    have hany : store.any (fun s => s.course.code == c.code) = true := by
      obtain ⟨s, hs, hcode⟩ := List.mem_map.mp (hmem c (List.mem_cons_self _ _))
      exact List.any_eq_true.mpr ⟨s, hs, beq_iff_eq.mpr hcode⟩
    have hup : upsert_course store c now =
        (store.map (fun s =>
          if s.course.code == c.code then
            { course := c, first_seen_at := s.first_seen_at, last_seen_at := now }
          else s), false) := by
      unfold upsert_course
      rw [if_pos hany]
    have hgcode : ∀ s : StoredCourse,
        ((fun s : StoredCourse =>
          if s.course.code == c.code then
            { course := c, first_seen_at := s.first_seen_at, last_seen_at := now }
          else s) s).course.code = s.course.code := by
      intro s
      dsimp only
      split
      · next heq => exact (beq_iff_eq.mp heq).symm
      · rfl
    have hcodesmap : storeCodes (store.map (fun s =>
        if s.course.code == c.code then
          { course := c, first_seen_at := s.first_seen_at, last_seen_at := now }
        else s)) = storeCodes store := by
      unfold storeCodes
      rw [List.map_map]
      exact List.map_congr_left (fun s _ => hgcode s)
    have hmem2 : ∀ x ∈ rest, x.code ∈ storeCodes (store.map (fun s =>
        if s.course.code == c.code then
          { course := c, first_seen_at := s.first_seen_at, last_seen_at := now }
        else s)) := by
      intro x hx
      rw [hcodesmap]
      exact hmem x (List.mem_cons_of_mem _ hx)
    obtain ⟨G2, hG1, hG2, hG3⟩ := ih _ hmem2
    refine ⟨G2 ∘ (fun s =>
      if s.course.code == c.code then
        { course := c, first_seen_at := s.first_seen_at, last_seen_at := now }
      else s), ?_, ?_, ?_⟩
    · simp only [upsertPhase]
      rw [hup]
      dsimp only
      rw [if_neg (by simp)]
      rw [hG1, List.map_map]
    · intro s
      exact (hG2 _).trans (hgcode s)
    · intro s hs
      have h1 : s.course.code ≠ c.code := by
        intro he
        exact hs (by rw [List.map_cons]; exact he ▸ List.mem_cons_self _ _)
      have h2 : s.course.code ∉ rest.map Course.code := by
        intro hm
        exact hs (by rw [List.map_cons]; exact List.mem_cons_of_mem _ hm)
      have hgs : (fun s : StoredCourse =>
          if s.course.code == c.code then
            { course := c, first_seen_at := s.first_seen_at, last_seen_at := now }
          else s) s = s := by
        dsimp only
        rw [if_neg]
        intro hbeq
        exact h1 (beq_iff_eq.mp hbeq)
      show G2 _ = s
      rw [hgs]
      exact hG3 s h2

/-- Removing a code held by exactly one row deletes that row and returns its
course. -/
theorem remove_course_at (M1 M2 : List StoredCourse) (e : StoredCourse)
    (h1 : e.course.code ∉ storeCodes M1) (h2 : e.course.code ∉ storeCodes M2) :
    remove_course (M1 ++ e :: M2) e.course.code = (M1 ++ M2, some e.course) := by
  unfold remove_course
  have hM1 : M1.find? (fun s => s.course.code == e.course.code) = none := by
    rw [List.find?_eq_none]
    intro x hx hbeq
    exact h1 (beq_iff_eq.mp hbeq ▸ List.mem_map_of_mem _ hx)
  have hfind : (M1 ++ e :: M2).find? (fun s => s.course.code == e.course.code) = some e := by
    rw [List.find?_append, hM1, Option.none_or]
    exact List.find?_cons_of_pos _ (by simp)
  rw [hfind]
  dsimp only
  have hfilter : (M1 ++ e :: M2).filter
      (fun s2 => !(s2.course.code == e.course.code)) = M1 ++ M2 := by
    rw [List.filter_append, List.filter_cons]
    rw [if_neg (by simp)]
    have hkeep1 : M1.filter (fun s2 => !(s2.course.code == e.course.code)) = M1 := by
      rw [List.filter_eq_self]
      intro a ha
      simp only [Bool.not_eq_true', beq_eq_false_iff_ne]
      intro he
      exact h1 (he ▸ List.mem_map_of_mem _ ha)
    have hkeep2 : M2.filter (fun s2 => !(s2.course.code == e.course.code)) = M2 := by
      rw [List.filter_eq_self]
      intro a ha
      simp only [Bool.not_eq_true', beq_eq_false_iff_ne]
      intro he
      exact h2 (he ▸ List.mem_map_of_mem _ ha)
    rw [hkeep1, hkeep2]
  rw [hfilter]

/-- The removal phase on a single code, outside the bootstrap run. -/
theorem removePhase_one (store : List StoredCourse) (cd : Str) :
    removePhase store [cd] false =
      ((remove_course store cd).1,
       (match (remove_course store cd).2 with
         | some course => [course]
         | none => []),
       (match (remove_course store cd).2 with
         | some course => [(("removed").data, course)]
         | none => [])) := by
  simp only [removePhase]
  cases (remove_course store cd).2 <;> rfl

/-- `sync_courses` against the empty store: the bootstrap run stores every
incoming course (with both timestamps set to `now`), reports nothing added or
removed, and flags the first run. -/
theorem sync_courses_empty (cur : List Course) (now : Nat)
    (hnd : (cur.map Course.code).Nodup) :
    sync_courses [] cur now =
      { store := cur.map (fun x =>
          { course := x, first_seen_at := now, last_seen_at := now })
        change_log := []
        result := { added := [], removed := [], is_first_run := true,
                    total_courses := cur.length } } := by
  have hstep : sync_courses [] cur now =
      { store := (upsertPhase [] cur now true).1
        change_log := (upsertPhase [] cur now true).2.2 ++ []
        result := { added := (upsertPhase [] cur now true).2.1, removed := [],
                    is_first_run := true, total_courses := cur.length } } := rfl
  rw [hstep, upsertPhase_fresh now true cur [] (by simp [storeCodes]) hnd,
    (upsertPhase_firstRun now cur []).1, (upsertPhase_firstRun now cur []).2]
  simp

/-- C3: the bootstrap run against the empty store reports `is_first_run` with
empty added and removed lists while persisting every incoming course; a
subsequent call whose input omits exactly one previously stored course (the
incoming list was `l1 ++ c :: l2`, the new input is `l1 ++ l2`) reports
`is_first_run = false`, a `removed` list containing exactly that course, and a
store count one lower. Incoming codes are assumed pairwise distinct, as the
spec's identity model requires. -/
theorem claim_C3_bootstrap_and_removal (l1 l2 : List Course) (c : Course)
    (now1 now2 : Nat)
    (hnd : ((l1 ++ c :: l2).map Course.code).Nodup) :
    (sync_courses [] (l1 ++ c :: l2) now1).result.is_first_run = true ∧
    (sync_courses [] (l1 ++ c :: l2) now1).result.added = [] ∧
    (sync_courses [] (l1 ++ c :: l2) now1).result.removed = [] ∧
    (∀ x ∈ l1 ++ c :: l2,
      ∃ s ∈ (sync_courses [] (l1 ++ c :: l2) now1).store, s.course = x) ∧
    (sync_courses [] (l1 ++ c :: l2) now1).store.length = (l1 ++ c :: l2).length ∧
    (sync_courses (sync_courses [] (l1 ++ c :: l2) now1).store
      (l1 ++ l2) now2).result.is_first_run = false ∧
    (sync_courses (sync_courses [] (l1 ++ c :: l2) now1).store
      (l1 ++ l2) now2).result.removed = [c] ∧
    (sync_courses (sync_courses [] (l1 ++ c :: l2) now1).store
      (l1 ++ l2) now2).store.length + 1 =
      (sync_courses [] (l1 ++ c :: l2) now1).store.length := by
  have hs1eq := sync_courses_empty (l1 ++ c :: l2) now1 hnd
  have hndsplit := List.nodup_append.mp
    (by rw [List.map_append, List.map_cons] at hnd; exact hnd)
  have hc1 : c.code ∉ l1.map Course.code := fun hm =>
    (List.disjoint_left.mp hndsplit.2.2 hm) (List.mem_cons_self _ _)
  have hc2 : c.code ∉ l2.map Course.code := (List.nodup_cons.mp hndsplit.2.1).1
  have hcc : c.code ∉ (l1 ++ l2).map Course.code := by
    rw [List.map_append]
    intro hm
    rcases List.mem_append.mp hm with h | h
    exacts [hc1 h, hc2 h]
  have hcontains_mem : ∀ (L : List Str) (a : Str), a ∈ L → L.contains a = true :=
    fun L a h => List.elem_iff.mpr h
  have hcontains_not : ∀ (L : List Str) (a : Str), a ∉ L → L.contains a = false := by
    intro L a h
    rw [← Bool.not_eq_true]
    intro hm
    exact h (List.elem_iff.mp hm)
  have hs1store : (sync_courses [] (l1 ++ c :: l2) now1).store =
      (l1 ++ c :: l2).map (fun x =>
        { course := x, first_seen_at := now1, last_seen_at := now1 }) := by
    rw [hs1eq]
  have hfr : (((l1 ++ c :: l2).map (fun x =>
      ({ course := x, first_seen_at := now1,
         last_seen_at := now1 } : StoredCourse))).length == 0) = false := by
    rw [beq_eq_false_iff_ne]
    simp only [List.length_map, List.length_append, List.length_cons]
    omega
  have hcodes1 : storeCodes ((l1 ++ c :: l2).map (fun x =>
      { course := x, first_seen_at := now1, last_seen_at := now1 })) =
      (l1 ++ c :: l2).map Course.code := by
    unfold storeCodes
    rw [List.map_map]
    rfl
  have hfilterRem : ((storeCodes ((l1 ++ c :: l2).map (fun x =>
      { course := x, first_seen_at := now1, last_seen_at := now1 }))).dedup).filter
      (fun cd => !(((l1 ++ l2).map Course.code).contains cd)) = [c.code] := by
    rw [hcodes1, List.Nodup.dedup hnd]
    rw [show (l1 ++ c :: l2).map Course.code =
        l1.map Course.code ++ c.code :: l2.map Course.code from by
      rw [List.map_append, List.map_cons]]
    rw [List.filter_append, List.filter_cons]
    have hp1 : (l1.map Course.code).filter
        (fun cd => !(((l1 ++ l2).map Course.code).contains cd)) = [] := by
      rw [List.filter_eq_nil_iff]
      intro a ha
      have hct : ((l1 ++ l2).map Course.code).contains a = true := by
        apply hcontains_mem
        rw [List.map_append]
        exact List.mem_append.mpr (Or.inl ha)
      simp only [Bool.not_eq_true']
      rw [hct]
      simp
    have hp3 : (l2.map Course.code).filter
        (fun cd => !(((l1 ++ l2).map Course.code).contains cd)) = [] := by
      rw [List.filter_eq_nil_iff]
      intro a ha
      have hct : ((l1 ++ l2).map Course.code).contains a = true := by
        apply hcontains_mem
        rw [List.map_append]
        exact List.mem_append.mpr (Or.inr ha)
      simp only [Bool.not_eq_true']
      rw [hct]
      simp
    have hpc : (!(((l1 ++ l2).map Course.code).contains c.code)) = true := by
      rw [hcontains_not _ _ hcc]
      rfl
    rw [hp1, hp3, if_pos hpc]
    rfl
  have hupmem : ∀ x ∈ l1 ++ l2, x.code ∈ storeCodes ((l1 ++ c :: l2).map (fun x =>
      { course := x, first_seen_at := now1, last_seen_at := now1 })) := by
    intro x hx
    rw [hcodes1, List.map_append, List.map_cons]
    rcases List.mem_append.mp hx with h | h
    · exact List.mem_append.mpr (Or.inl (List.mem_map_of_mem _ h))
    · exact List.mem_append.mpr
        (Or.inr (List.mem_cons_of_mem _ (List.mem_map_of_mem _ h)))
  obtain ⟨G, hG1, hG2, hG3⟩ := upsertPhase_update now2
    ((((l1 ++ c :: l2).map (fun x =>
      ({ course := x, first_seen_at := now1,
         last_seen_at := now1 } : StoredCourse))).length == 0))
    (l1 ++ l2)
    ((l1 ++ c :: l2).map (fun x =>
      { course := x, first_seen_at := now1, last_seen_at := now1 }))
    hupmem
  have hGcodes : ∀ M : List StoredCourse, storeCodes (M.map G) = storeCodes M := by
    intro M
    unfold storeCodes
    rw [List.map_map]
    exact List.map_congr_left (fun s _ => hG2 s)
  have hstoremap : ((l1 ++ c :: l2).map (fun x =>
      ({ course := x, first_seen_at := now1,
         last_seen_at := now1 } : StoredCourse))).map G =
      (l1.map (fun x =>
        ({ course := x, first_seen_at := now1,
           last_seen_at := now1 } : StoredCourse))).map G ++
      G { course := c, first_seen_at := now1, last_seen_at := now1 } ::
      (l2.map (fun x =>
        ({ course := x, first_seen_at := now1,
           last_seen_at := now1 } : StoredCourse))).map G := by
    rw [List.map_append, List.map_cons, List.map_append, List.map_cons]
  have hGe : G { course := c, first_seen_at := now1, last_seen_at := now1 } =
      { course := c, first_seen_at := now1, last_seen_at := now1 } :=
    hG3 _ hcc
  have hMcodes : ∀ l : List Course, storeCodes (l.map (fun x =>
      ({ course := x, first_seen_at := now1,
         last_seen_at := now1 } : StoredCourse))) = l.map Course.code := by
    intro l
    unfold storeCodes
    rw [List.map_map]
    rfl
  have hA : c.code ∉ storeCodes ((l1.map (fun x =>
      ({ course := x, first_seen_at := now1,
         last_seen_at := now1 } : StoredCourse))).map G) := by
    rw [hGcodes, hMcodes]
    exact hc1
  have hB : c.code ∉ storeCodes ((l2.map (fun x =>
      ({ course := x, first_seen_at := now1,
         last_seen_at := now1 } : StoredCourse))).map G) := by
    rw [hGcodes, hMcodes]
    exact hc2
  have hremove : remove_course (((l1 ++ c :: l2).map (fun x =>
      ({ course := x, first_seen_at := now1,
         last_seen_at := now1 } : StoredCourse))).map G) c.code =
      ((l1.map (fun x =>
        ({ course := x, first_seen_at := now1,
           last_seen_at := now1 } : StoredCourse))).map G ++
       (l2.map (fun x =>
        ({ course := x, first_seen_at := now1,
           last_seen_at := now1 } : StoredCourse))).map G, some c) := by
    rw [hstoremap, hGe]
    exact remove_course_at _ _
      { course := c, first_seen_at := now1, last_seen_at := now1 } hA hB
  have hrem : removePhase
      ((upsertPhase ((l1 ++ c :: l2).map (fun x =>
        { course := x, first_seen_at := now1, last_seen_at := now1 }))
        (l1 ++ l2) now2
        ((((l1 ++ c :: l2).map (fun x =>
          ({ course := x, first_seen_at := now1,
             last_seen_at := now1 } : StoredCourse))).length == 0))).1)
      (((storeCodes ((l1 ++ c :: l2).map (fun x =>
        { course := x, first_seen_at := now1, last_seen_at := now1 }))).dedup).filter
        (fun cd => !(((l1 ++ l2).map Course.code).contains cd)))
      ((((l1 ++ c :: l2).map (fun x =>
        ({ course := x, first_seen_at := now1,
           last_seen_at := now1 } : StoredCourse))).length == 0)) =
      ((l1.map (fun x =>
        ({ course := x, first_seen_at := now1,
           last_seen_at := now1 } : StoredCourse))).map G ++
       (l2.map (fun x =>
        ({ course := x, first_seen_at := now1,
           last_seen_at := now1 } : StoredCourse))).map G,
       [c], [(("removed").data, c)]) := by
    rw [hfilterRem, hG1, hfr, removePhase_one, hremove]
  refine ⟨by rw [hs1eq], by rw [hs1eq], by rw [hs1eq], ?_, ?_, ?_, ?_, ?_⟩
  · intro x hx
    rw [hs1eq]
    exact ⟨{ course := x, first_seen_at := now1, last_seen_at := now1 },
      List.mem_map_of_mem _ hx, rfl⟩
  · rw [hs1eq]
    simp
  · rw [hs1store]
    exact hfr
  · rw [hs1store]
    exact congrArg (fun t => t.2.1) hrem
  · rw [hs1store]
    have hstore2 : (sync_courses ((l1 ++ c :: l2).map (fun x =>
        { course := x, first_seen_at := now1, last_seen_at := now1 }))
        (l1 ++ l2) now2).store =
        (l1.map (fun x =>
          ({ course := x, first_seen_at := now1,
             last_seen_at := now1 } : StoredCourse))).map G ++
        (l2.map (fun x =>
          ({ course := x, first_seen_at := now1,
             last_seen_at := now1 } : StoredCourse))).map G :=
      congrArg (fun t => t.1) hrem
    rw [hstore2]
    simp only [List.length_append, List.length_map, List.length_cons]
    omega

/-- Witness for C3 at a concrete three-course bootstrap followed by a call
omitting the middle course. -/
theorem claim_C3_witness :
    ((([courseA] ++ courseC :: [courseB]).map Course.code)).Nodup ∧
    (sync_courses [] ([courseA] ++ courseC :: [courseB]) 0).result.is_first_run = true ∧
    (sync_courses [] ([courseA] ++ courseC :: [courseB]) 0).result.added = [] ∧
    (sync_courses (sync_courses [] ([courseA] ++ courseC :: [courseB]) 0).store
      ([courseA] ++ [courseB]) 1).result.removed = [courseC] := by
  have h := claim_C3_bootstrap_and_removal [courseA] [courseB] courseC 0 1 (by decide)
  exact ⟨by decide, h.1, h.2.1, h.2.2.2.2.2.2.1⟩

/-- C9: in a cycle whose fetch and sync succeed and in which at least one
notifier succeeds, the cycle still returns success even though the run-ledger
append fails; and the ledger write is the last collaborator call, issued after
any notification delivery, so a ledger failure can never block
notifications. -/
theorem claim_C9_ledger_failure_swallowed (o : CycleOracle) (filter : PointsFilter)
    (courses : List Course) (sres : SyncResult) (err : Str)
    (hf : o.fetchRes = Except.ok courses) (hs : o.syncRes = Except.ok sres)
    (hn : o.notifyResults.any (fun r => exceptIsOk r.2) = true)
    (hl : o.logRunRes = Except.error err) :
    (run_scrape_cycle o filter).1 = Except.ok () ∧
    ∃ (entry : RunLog) (notifyPart : List CycleEvent),
      (run_scrape_cycle o filter).2 =
        [CycleEvent.fetchCall, CycleEvent.syncCall] ++ notifyPart ++
          [CycleEvent.logRunCall entry] ∧
      ∀ e ∈ notifyPart, ∃ d, e = CycleEvent.notifyCall d := by
  unfold run_scrape_cycle
  rw [hf, hs]
  dsimp only
  refine ⟨rfl, _, _, rfl, ?_⟩
  intro e he
  split at he
  · exact absurd he (by simp)
  · split at he
    · exact absurd he (by simp)
    · split at he
      · exact absurd he (by simp)
      · simp only [List.mem_singleton] at he
        exact ⟨_, he⟩

/-- Witness for C9: the sample oracle has a failing ledger append, yet the
cycle returns success. -/
theorem claim_C9_witness :
    sampleOracle.logRunRes = Except.error (("run-ledger write failed").data) ∧
    (run_scrape_cycle sampleOracle PointsFilter.None).1 = Except.ok () := by
  refine ⟨rfl, ?_⟩
  exact (claim_C9_ledger_failure_swallowed sampleOracle PointsFilter.None
    [sampleCourse]
    { added := [sampleCourse], removed := [], is_first_run := false, total_courses := 1 }
    (("run-ledger write failed").data)
    rfl rfl (by decide) rfl).1

end UioBot
